import Mathlib

/-!
Verification of the roguelike core (src/main.rs): tile-grid data model,
procedural map generation (room and tunnel carving), movement with
collision, rendering to a two-channel cell buffer, and key handling.

The Rust code is shallowly embedded: `Vec<Vec<Tile>>` becomes
`List (List Tile)`; the `x as usize` cast on an `i32` is modelled by the
2^64 wrap-around `usize`; indexing that can panic (out-of-bounds `Vec`
access) is modelled by `Option`-returning functions, `none` standing for
the panic.
-/

namespace Roguelike

/-- i32 constant SCREEN_WIDTH from the source. -/
def SCREEN_WIDTH : Int := 80
/-- i32 constant SCREEN_HEIGHT from the source. -/
def SCREEN_HEIGHT : Int := 50
/-- i32 constant LIMIT_FPS from the source. -/
def LIMIT_FPS : Int := 20
/-- i32 constant MAP_WIDTH from the source. -/
def MAP_WIDTH : Int := 80
/-- i32 constant MAP_HEIGHT from the source. -/
def MAP_HEIGHT : Int := 45

/-- RGB color triple (tcod `Color` struct: fields r, g, b are u8). -/
structure Color where
  r : Nat
  g : Nat
  b : Nat
deriving DecidableEq

/-- `COLOR_DARK_WALL = Color { r: 0, g: 0, b: 100 }` from the source. -/
def COLOR_DARK_WALL : Color := ⟨0, 0, 100⟩

/-- `COLOR_DARK_GROUND = Color { r: 50, g: 50, b: 150 }` from the source. -/
def COLOR_DARK_GROUND : Color := ⟨50, 50, 150⟩

/-- tcod's WHITE color constant. -/
def WHITE : Color := ⟨255, 255, 255⟩

/-- tcod's YELLOW color constant. -/
def YELLOW : Color := ⟨255, 255, 0⟩

/-- `struct Tile { blocked: bool, block_sight: bool }` from the source. -/
structure Tile where
  blocked : Bool
  block_sight : Bool
deriving DecidableEq

/-- `Tile::empty()` from the source. -/
def Tile.empty : Tile := ⟨false, false⟩

/-- `Tile::wall()` from the source. -/
def Tile.wall : Tile := ⟨true, true⟩

/-- `struct Rect { x1, y1, x2, y2: i32 }` from the source. -/
structure Rect where
  x1 : Int
  y1 : Int
  x2 : Int
  y2 : Int
deriving DecidableEq

/-- `Rect::new(x, y, w, h)` from the source. -/
def Rect.new (x y w h : Int) : Rect := ⟨x, y, x + w, y + h⟩

/-- `type Map = Vec<Vec<Tile>>` from the source (outer index x, inner y). -/
abbrev Map := List (List Tile)

/-- The i32 value range: entity coordinates, deltas and rectangle corners
are `i32` in the source. -/
abbrev I32 (x : Int) : Prop := -2147483648 ≤ x ∧ x < 2147483648

/-- Rust's `x as usize` cast of an `i32` on a 64-bit target: wrap modulo
2^64, so a negative coordinate becomes a huge index. -/
def usize (x : Int) : Nat := (x % 18446744073709551616).toNat

/-- `map[x as usize][y as usize]` as a read: `none` models the
out-of-bounds `Vec` index panic. -/
def getTile (m : Map) (x y : Int) : Option Tile :=
  (m[usize x]?).bind fun col => col[usize y]?

/-- `map[x as usize][y as usize] = t` as a write: `none` models the
out-of-bounds `Vec` index panic. -/
def setTile (m : Map) (x y : Int) (t : Tile) : Option Map :=
  (m[usize x]?).bind fun col =>
    (col[usize y]?).map fun _ => m.set (usize x) (col.set (usize y) t)

/-- `struct Game { map: Map }` from the source. -/
structure Game where
  map : Map

/-- `Game::tile_at(&self, x, y) -> Tile`, i.e. `self.map[x as usize][y as usize]`:
`none` models the out-of-bounds panic ("fail loudly"). -/
def Game.tile_at (g : Game) (x y : Int) : Option Tile :=
  getTile g.map x y

/-- `struct Object { x, y: i32, char: char, color: Color }` from the source. -/
structure Object where
  x : Int
  y : Int
  char : Char
  color : Color
deriving DecidableEq

/-- `Object::new` from the source. -/
def Object.new (x y : Int) (c : Char) (color : Color) : Object :=
  ⟨x, y, c, color⟩

/-- `Object::move_by(&mut self, game, dx, dy)` from the source: compute the
candidate `(x+dx, y+dy)`, look the tile up, move only if it is not blocked.
`none` models the panic inside `tile_at` when the candidate is out of
bounds; otherwise the updated object is returned. -/
def Object.move_by (o : Object) (game : Game) (dx dy : Int) : Option Object :=
  (game.tile_at (o.x + dx) (o.y + dy)).map fun t =>
    if !t.blocked then { o with x := o.x + dx, y := o.y + dy } else o

/-- Rust's half-open i32 range `a..b` as the list it iterates over. -/
def intRange (a b : Int) : List Int :=
  (List.range (b - a).toNat).map fun (i : Nat) => a + (i : Int)

/-- Carve a list of cells in order, setting each to `Tile.empty`
(the common loop body `map[x][y] = Tile::empty()` of `create_room`,
`create_h_tunnel` and `create_v_tunnel`); `none` models a panic. -/
def carveCells (m : Map) (cells : List (Int × Int)) : Option Map :=
  match cells with
  | [] => some m
  | p :: rest =>
    (setTile m p.1 p.2 Tile.empty).bind fun m1 => carveCells m1 rest

/-- The cells visited by `create_room`'s nested loops, in loop order:
`for x in (room.x1+1)..room.x2 { for y in (room.y1+1)..room.y2 }`. -/
def interiorCells (room : Rect) : List (Int × Int) :=
  (intRange (room.x1 + 1) room.x2).flatMap fun x =>
    (intRange (room.y1 + 1) room.y2).map fun y => (x, y)

/-- `create_room(map, room)` from the source: clear every tile strictly
inside the rectangle. -/
def create_room (m : Map) (room : Rect) : Option Map :=
  carveCells m (interiorCells room)

/-- The cells visited by `create_h_tunnel`'s loop, in loop order:
`for x in cmp::min(x1,x2)..(cmp::max(x1,x2) + 1)`. -/
def hTunnelCells (x1 x2 y : Int) : List (Int × Int) :=
  (intRange (min x1 x2) (max x1 x2 + 1)).map fun x => (x, y)

/-- `create_h_tunnel(map, x1, x2, y)` from the source. -/
def create_h_tunnel (m : Map) (x1 x2 y : Int) : Option Map :=
  carveCells m (hTunnelCells x1 x2 y)

/-- The cells visited by `create_v_tunnel`'s loop, in loop order. -/
def vTunnelCells (y1 y2 x : Int) : List (Int × Int) :=
  (intRange (min y1 y2) (max y1 y2 + 1)).map fun y => (x, y)

/-- `create_v_tunnel(map, y1, y2, x)` from the source. -/
def create_v_tunnel (m : Map) (y1 y2 x : Int) : Option Map :=
  carveCells m (vTunnelCells y1 y2 x)

/-- `make_map()` from the source: 80×45 all-wall grid, two rooms
`(20,15,10,15)` and `(50,15,10,15)`, one horizontal tunnel from x=25 to
x=55 at y=23. -/
def make_map : Option Map :=
  let map0 : Map :=
    List.replicate (usize MAP_WIDTH) (List.replicate (usize MAP_HEIGHT) Tile.wall)
  let room1 := Rect.new 20 15 10 15
  let room2 := Rect.new 50 15 10 15
  match create_room map0 room1 with
  | none => none
  | some m1 =>
    match create_room m1 room2 with
    | none => none
    | some m2 => create_h_tunnel m2 25 55 23

/-! ### Basic facts about the coordinate cast and ranges -/

theorem usize_of_nonneg {x : Int} (h0 : 0 ≤ x) (h1 : x < 18446744073709551616) :
    usize x = x.toNat := by
  unfold usize; omega

theorem usize_ge_of_neg {x : Int} (h0 : -2147483648 ≤ x) (h1 : x < 0) :
    18446744071562067968 ≤ usize x := by
  unfold usize
  have h2 : x % 18446744073709551616 = x + 18446744073709551616 := by omega
  rw [h2]
  omega

theorem usize_inj {x y : Int} (hx : I32 x) (hy : I32 y) (h : usize x = usize y) :
    x = y := by
  obtain ⟨hx1, hx2⟩ := hx
  obtain ⟨hy1, hy2⟩ := hy
  unfold usize at h
  omega

theorem mem_intRange {a b x : Int} : x ∈ intRange a b ↔ a ≤ x ∧ x < b := by
  unfold intRange
  simp only [List.mem_map, List.mem_range]
  constructor
  · rintro ⟨i, hi, rfl⟩
    constructor
    · omega
    · omega
  · rintro ⟨h1, h2⟩
    refine ⟨(x - a).toNat, by omega, by omega⟩

theorem length_intRange (a b : Int) : (intRange a b).length = (b - a).toNat := by
  unfold intRange
  rw [List.length_map, List.length_range]

/-! ### What a single carve write does -/

theorem setTile_getTile {m m' : Map} {x y : Int} {t : Tile}
    (h : setTile m x y t = some m') (a b : Int) :
    getTile m' a b =
      if usize a = usize x ∧ usize b = usize y then some t else getTile m a b := by
  unfold setTile at h
  cases hcol : m[usize x]? with
  | none => rw [hcol] at h; simp at h
  | some col =>
    rw [hcol, Option.some_bind] at h
    cases hcell : col[usize y]? with
    | none => rw [hcell] at h; simp at h
    | some t0 =>
      rw [hcell] at h
      simp only [Option.map_some', Option.some.injEq] at h
      subst h
      have hxlen : usize x < m.length := by
        by_contra hk
        rw [List.getElem?_eq_none (by omega)] at hcol
        exact absurd hcol (by simp)
      have hylen : usize y < col.length := by
        by_contra hk
        rw [List.getElem?_eq_none (by omega)] at hcell
        exact absurd hcell (by simp)
      by_cases hax : usize a = usize x
      · unfold getTile
        rw [hax, List.getElem?_set_self hxlen, Option.some_bind, hcol, Option.some_bind]
        by_cases hby : usize b = usize y
        · rw [hby, List.getElem?_set_self hylen, if_pos ⟨rfl, rfl⟩]
        · rw [List.getElem?_set_ne (by omega), if_neg (by simp [hby])]
      · unfold getTile
        rw [List.getElem?_set_ne (by omega), if_neg (by simp [hax])]

theorem setTile_isSome_iff {m : Map} {x y : Int} {t : Tile} :
    (setTile m x y t).isSome ↔ (getTile m x y).isSome := by
  unfold setTile getTile
  cases hcol : m[usize x]? with
  | none => simp
  | some col =>
    cases hcell : col[usize y]? with
    | none => simp [hcell]
    | some t0 => simp [hcell]

/-! ### Carving a list of cells -/

theorem carveCells_getTile (cells : List (Int × Int)) :
    ∀ (m m' : Map), carveCells m cells = some m' →
      (∀ p ∈ cells, I32 p.1 ∧ I32 p.2) →
      ∀ (a b : Int), I32 a → I32 b →
        getTile m' a b =
          if (a, b) ∈ cells then some Tile.empty else getTile m a b := by
  induction cells with
  | nil =>
    intro m m' h _ a b _ _
    unfold carveCells at h
    simp only [Option.some.injEq] at h
    subst h
    simp
  | cons p rest ih =>
    intro m m' h hc a b ha hb
    unfold carveCells at h
    cases hs : setTile m p.1 p.2 Tile.empty with
    | none => rw [hs] at h; simp at h
    | some m1 =>
      rw [hs, Option.some_bind] at h
      have key := setTile_getTile hs a b
      have ihr := ih m1 m' h (fun q hq => hc q (List.mem_cons_of_mem _ hq)) a b ha hb
      by_cases hmem : (a, b) ∈ p :: rest
      · rw [if_pos hmem]
        by_cases hr : (a, b) ∈ rest
        · rw [ihr, if_pos hr]
        · have heq : (a, b) = p := by
            rcases List.mem_cons.mp hmem with h1 | h1
            · exact h1
            · exact absurd h1 hr
          rw [ihr, if_neg hr, key, if_pos ⟨by rw [← heq], by rw [← heq]⟩]
      · rw [if_neg hmem]
        have hr : (a, b) ∉ rest := fun hh => hmem (List.mem_cons_of_mem _ hh)
        have hne : (a, b) ≠ p := fun hh => hmem (hh ▸ List.mem_cons_self _ _)
        rw [ihr, if_neg hr, key, if_neg ?_]
        rintro ⟨h1, h2⟩
        have e1 := usize_inj ha (hc p (List.mem_cons_self _ _)).1 h1
        have e2 := usize_inj hb (hc p (List.mem_cons_self _ _)).2 h2
        exact hne (by rw [Prod.ext_iff]; exact ⟨e1, e2⟩)

/-! ### Room carving -/

theorem mem_interiorCells {room : Rect} {a b : Int} :
    (a, b) ∈ interiorCells room ↔
      room.x1 + 1 ≤ a ∧ a < room.x2 ∧ room.y1 + 1 ≤ b ∧ b < room.y2 := by
  unfold interiorCells
  simp only [List.mem_flatMap, List.mem_map, Prod.mk.injEq]
  constructor
  · rintro ⟨u, hu, v, hv, rfl, rfl⟩
    have h1 := mem_intRange.mp hu
    have h2 := mem_intRange.mp hv
    exact ⟨h1.1, h1.2, h2.1, h2.2⟩
  · rintro ⟨h1, h2, h3, h4⟩
    exact ⟨a, mem_intRange.mpr ⟨h1, h2⟩, b, mem_intRange.mpr ⟨h3, h4⟩, rfl, rfl⟩

theorem interiorCells_i32 {room : Rect} (hx1 : I32 room.x1) (hx2 : I32 room.x2)
    (hy1 : I32 room.y1) (hy2 : I32 room.y2) :
    ∀ p ∈ interiorCells room, I32 p.1 ∧ I32 p.2 := by
  rintro ⟨a, b⟩ hp
  have h := mem_interiorCells.mp hp
  obtain ⟨e1, e2⟩ := hx1
  obtain ⟨e3, e4⟩ := hx2
  obtain ⟨e5, e6⟩ := hy1
  obtain ⟨e7, e8⟩ := hy2
  exact ⟨⟨by omega, by omega⟩, ⟨by omega, by omega⟩⟩

/-- Shared characterization of `create_room`: the carved map has
`Tile.empty` at exactly the strict interior of the rectangle and is
unchanged elsewhere. -/
theorem create_room_getTile {m m' : Map} {room : Rect}
    (hx1 : I32 room.x1) (hx2 : I32 room.x2) (hy1 : I32 room.y1) (hy2 : I32 room.y2)
    (h : create_room m room = some m')
    (a b : Int) (ha : I32 a) (hb : I32 b) :
    getTile m' a b =
      if room.x1 < a ∧ a < room.x2 ∧ room.y1 < b ∧ b < room.y2
      then some Tile.empty else getTile m a b := by
  have key := carveCells_getTile (interiorCells room) m m' h
    (interiorCells_i32 hx1 hx2 hy1 hy2) a b ha hb
  rw [key]
  by_cases hcond : room.x1 < a ∧ a < room.x2 ∧ room.y1 < b ∧ b < room.y2
  · rw [if_pos hcond, if_pos (mem_interiorCells.mpr (by omega))]
  · rw [if_neg hcond, if_neg (fun hmem => hcond (by
      have := mem_interiorCells.mp hmem
      omega))]

/-! ### Tunnel carving -/

theorem mem_hTunnelCells {x1 x2 y a b : Int} :
    (a, b) ∈ hTunnelCells x1 x2 y ↔
      min x1 x2 ≤ a ∧ a ≤ max x1 x2 ∧ b = y := by
  unfold hTunnelCells
  simp only [List.mem_map, Prod.mk.injEq]
  constructor
  · rintro ⟨u, hu, rfl, rfl⟩
    have h1 := mem_intRange.mp hu
    exact ⟨h1.1, by omega, rfl⟩
  · rintro ⟨h1, h2, rfl⟩
    exact ⟨a, mem_intRange.mpr ⟨h1, by omega⟩, rfl, rfl⟩

theorem mem_vTunnelCells {y1 y2 x a b : Int} :
    (a, b) ∈ vTunnelCells y1 y2 x ↔
      a = x ∧ min y1 y2 ≤ b ∧ b ≤ max y1 y2 := by
  unfold vTunnelCells
  simp only [List.mem_map, Prod.mk.injEq]
  constructor
  · rintro ⟨u, hu, rfl, rfl⟩
    have h1 := mem_intRange.mp hu
    exact ⟨rfl, h1.1, by omega⟩
  · rintro ⟨rfl, h1, h2⟩
    exact ⟨b, mem_intRange.mpr ⟨h1, by omega⟩, rfl, rfl⟩

/-- Shared characterization of `create_h_tunnel`: the carved map has
`Tile.empty` at exactly the inclusive horizontal run `[min, max] × {y}`
and is unchanged elsewhere. -/
theorem create_h_tunnel_getTile {m m' : Map} {x1 x2 y : Int}
    (hx1 : I32 x1) (hx2 : I32 x2) (hy : I32 y)
    (h : create_h_tunnel m x1 x2 y = some m')
    (a b : Int) (ha : I32 a) (hb : I32 b) :
    getTile m' a b =
      if min x1 x2 ≤ a ∧ a ≤ max x1 x2 ∧ b = y
      then some Tile.empty else getTile m a b := by
  have hcells : ∀ p ∈ hTunnelCells x1 x2 y, I32 p.1 ∧ I32 p.2 := by
    rintro ⟨u, v⟩ hp
    have hm := mem_hTunnelCells.mp hp
    obtain ⟨e1, e2⟩ := hx1
    obtain ⟨e3, e4⟩ := hx2
    obtain ⟨e5, e6⟩ := hy
    constructor
    · constructor
      · have : min x1 x2 ≥ -2147483648 := by omega
        omega
      · have : max x1 x2 < 2147483648 := by omega
        omega
    · constructor
      · omega
      · omega
  have key := carveCells_getTile (hTunnelCells x1 x2 y) m m' h hcells a b ha hb
  rw [key]
  by_cases hcond : min x1 x2 ≤ a ∧ a ≤ max x1 x2 ∧ b = y
  · rw [if_pos hcond, if_pos (mem_hTunnelCells.mpr hcond)]
  · rw [if_neg hcond, if_neg (fun hmem => hcond (mem_hTunnelCells.mp hmem))]

/-- Shared characterization of `create_v_tunnel`. -/
theorem create_v_tunnel_getTile {m m' : Map} {y1 y2 x : Int}
    (hy1 : I32 y1) (hy2 : I32 y2) (hx : I32 x)
    (h : create_v_tunnel m y1 y2 x = some m')
    (a b : Int) (ha : I32 a) (hb : I32 b) :
    getTile m' a b =
      if a = x ∧ min y1 y2 ≤ b ∧ b ≤ max y1 y2
      then some Tile.empty else getTile m a b := by
  have hcells : ∀ p ∈ vTunnelCells y1 y2 x, I32 p.1 ∧ I32 p.2 := by
    rintro ⟨u, v⟩ hp
    have hm := mem_vTunnelCells.mp hp
    obtain ⟨e1, e2⟩ := hy1
    obtain ⟨e3, e4⟩ := hy2
    obtain ⟨e5, e6⟩ := hx
    constructor
    · constructor
      · omega
      · omega
    · constructor
      · have : min y1 y2 ≥ -2147483648 := by omega
        omega
      · have : max y1 y2 < 2147483648 := by omega
        omega
  have key := carveCells_getTile (vTunnelCells y1 y2 x) m m' h hcells a b ha hb
  rw [key]
  by_cases hcond : a = x ∧ min y1 y2 ≤ b ∧ b ≤ max y1 y2
  · rw [if_pos hcond, if_pos (mem_vTunnelCells.mpr hcond)]
  · rw [if_neg hcond, if_neg (fun hmem => hcond (mem_vTunnelCells.mp hmem))]

theorem create_h_tunnel_comm (m : Map) (x1 x2 y : Int) :
    create_h_tunnel m x1 x2 y = create_h_tunnel m x2 x1 y := by
  unfold create_h_tunnel hTunnelCells
  rw [min_comm, max_comm]

theorem create_v_tunnel_comm (m : Map) (y1 y2 x : Int) :
    create_v_tunnel m y1 y2 x = create_v_tunnel m y2 y1 x := by
  unfold create_v_tunnel vTunnelCells
  rw [min_comm, max_comm]

/-! ### Bounds behavior of tile lookup -/

/-- A rectangular map: outer length `w`, every row of length `h`
(the shape `make_map` allocates). -/
def mapWF (m : Map) (w h : Nat) : Prop :=
  m.length = w ∧ ∀ row ∈ m, row.length = h

/-- Boolean check of `mapWF`, for concrete evaluation. -/
def mapWFb (m : Map) (w h : Nat) : Bool :=
  m.length == w && m.all fun row => row.length == h

theorem mapWFb_eq_true {m : Map} {w h : Nat} (hb : mapWFb m w h = true) :
    mapWF m w h := by
  unfold mapWFb at hb
  rw [Bool.and_eq_true] at hb
  obtain ⟨h1, h2⟩ := hb
  refine ⟨by simpa using h1, ?_⟩
  intro row hrow
  rw [List.all_eq_true] at h2
  simpa using h2 row hrow

theorem getTile_some_of_bounds {m : Map} {w h : Nat} (hwf : mapWF m w h)
    (hw : w ≤ 2147483648) (hh : h ≤ 2147483648) {x y : Int}
    (hx0 : 0 ≤ x) (hx1 : x < (w : Int)) (hy0 : 0 ≤ y) (hy1 : y < (h : Int)) :
    ∃ row t, m[x.toNat]? = some row ∧ row[y.toNat]? = some t ∧
      getTile m x y = some t := by
  obtain ⟨hlen, hrows⟩ := hwf
  have hux : usize x = x.toNat := usize_of_nonneg hx0 (by omega)
  have huy : usize y = y.toNat := usize_of_nonneg hy0 (by omega)
  have hxlt : x.toNat < m.length := by omega
  have hrow : m[x.toNat]? = some m[x.toNat] := List.getElem?_eq_getElem hxlt
  have hmem : m[x.toNat] ∈ m := List.getElem_mem hxlt
  have hrlen : m[x.toNat].length = h := hrows _ hmem
  have hylt : y.toNat < m[x.toNat].length := by omega
  have hcell : m[x.toNat][y.toNat]? = some m[x.toNat][y.toNat] :=
    List.getElem?_eq_getElem hylt
  refine ⟨m[x.toNat], m[x.toNat][y.toNat], hrow, hcell, ?_⟩
  unfold getTile
  rw [hux, huy, hrow, Option.some_bind, hcell]

theorem getTile_none_of_oob {m : Map} {w h : Nat} (hwf : mapWF m w h)
    (hw : w ≤ 2147483648) (hh : h ≤ 2147483648) {x y : Int}
    (hx : I32 x) (hy : I32 y)
    (hoob : ¬(0 ≤ x ∧ x < (w : Int) ∧ 0 ≤ y ∧ y < (h : Int))) :
    getTile m x y = none := by
  obtain ⟨hlen, hrows⟩ := hwf
  obtain ⟨hxl, hxr⟩ := hx
  obtain ⟨hyl, hyr⟩ := hy
  unfold getTile
  by_cases hx0 : 0 ≤ x
  · by_cases hx1 : x < (w : Int)
    · -- x is in range, so y must be out of range
      have hux : usize x = x.toNat := usize_of_nonneg hx0 (by omega)
      have hxlt : x.toNat < m.length := by omega
      have hrow : m[x.toNat]? = some m[x.toNat] := List.getElem?_eq_getElem hxlt
      have hrlen : m[x.toNat].length = h := hrows _ (List.getElem_mem hxlt)
      rw [hux, hrow, Option.some_bind]
      by_cases hy0 : 0 ≤ y
      · have hy1 : ¬(y < (h : Int)) := by tauto
        have huy : usize y = y.toNat := usize_of_nonneg hy0 (by omega)
        rw [huy]
        exact List.getElem?_eq_none (by omega)
      · have huy : 18446744071562067968 ≤ usize y :=
          usize_ge_of_neg (by omega) (by omega)
        exact List.getElem?_eq_none (by omega)
    · have hux : usize x = x.toNat := usize_of_nonneg hx0 (by omega)
      rw [hux, List.getElem?_eq_none (by omega), Option.none_bind]
  · have hux : 18446744071562067968 ≤ usize x :=
      usize_ge_of_neg (by omega) (by omega)
    rw [List.getElem?_eq_none (by omega), Option.none_bind]

/-! ### Rendering

The drawing primitives come from the excluded windowing collaborator
(tcod); per the spec they are modelled as an offscreen cell buffer with
two independent per-cell channels. -/

/-- Modelled from the spec: the offscreen console buffer (`Offscreen`).
Each cell has a foreground channel (glyph plus its color) and a
background-tint channel, plus the console's current default foreground
color; the channels are independent. -/
structure Console where
  defaultFg : Color
  fgChar : Int → Int → Char
  fgColor : Int → Int → Color
  bg : Int → Int → Color

/-- Modelled from the spec: `set_default_foreground` sets the console's
current foreground color, touching no cell. -/
def Console.set_default_foreground (c : Console) (col : Color) : Console :=
  { c with defaultFg := col }

/-- Modelled from the spec: `put_char(x, y, ch, BackgroundFlag::None)`
writes the glyph and the current foreground color at one cell and leaves
every background tint alone. -/
def Console.put_char (c : Console) (x y : Int) (ch : Char) : Console :=
  { c with
    fgChar := fun a b => if a = x ∧ b = y then ch else c.fgChar a b
    fgColor := fun a b => if a = x ∧ b = y then c.defaultFg else c.fgColor a b }

/-- Modelled from the spec: `set_char_background(x, y, color,
BackgroundFlag::Set)` writes the background tint at one cell and leaves
the glyph channel alone. -/
def Console.set_char_background (c : Console) (x y : Int) (col : Color) : Console :=
  { c with bg := fun a b => if a = x ∧ b = y then col else c.bg a b }

/-- `Object::draw(&self, con)` from the source: set the foreground color,
then put the glyph at the object's cell with `BackgroundFlag::None`. -/
def Object.draw (o : Object) (con : Console) : Console :=
  (con.set_default_foreground o.color).put_char o.x o.y o.char

/-- The first loop of `render_all`: `for object in objects { object.draw(con) }`. -/
def entityPass (objects : List Object) (con : Console) : Console :=
  match objects with
  | [] => con
  | o :: rest => entityPass rest (o.draw con)

/-- The body of `render_all`'s background loops at one cell: read
`game.map[x][y].block_sight` (`none` models the out-of-bounds panic) and
set the cell background to the wall or ground tint. -/
def bgCells (g : Game) (con : Console) (cells : List (Int × Int)) : Option Console :=
  match cells with
  | [] => some con
  | p :: rest =>
    (getTile g.map p.1 p.2).bind fun t =>
      bgCells g
        (if t.block_sight
         then con.set_char_background p.1 p.2 COLOR_DARK_WALL
         else con.set_char_background p.1 p.2 COLOR_DARK_GROUND) rest

/-- The cells visited by `render_all`'s nested background loops, in loop
order: `for y in 0..MAP_HEIGHT { for x in 0..MAP_WIDTH }`. -/
def gridCells : List (Int × Int) :=
  (intRange 0 MAP_HEIGHT).flatMap fun y =>
    (intRange 0 MAP_WIDTH).map fun x => (x, y)

/-- The background loop of `render_all`. -/
def bgPass (g : Game) (con : Console) : Option Console :=
  bgCells g con gridCells

/-- `render_all(tcod, game, objects)` from the source, restricted to the
composed buffer `con`: draw every object, then run the per-cell
background pass. (The final `blit` to the root console and its
presentation belong to the excluded windowing collaborator.) -/
def render_all (con : Console) (g : Game) (objects : List Object) : Option Console :=
  bgPass g (entityPass objects con)

/-- Modelled from the spec: the alternative render order the spec allows —
background pass first, then the entity pass — over the same buffer. -/
def render_all_bg_first (con : Console) (g : Game) (objects : List Object) :
    Option Console :=
  (bgPass g con).map (entityPass objects)

theorem mem_gridCells {x y : Int} :
    (x, y) ∈ gridCells ↔ 0 ≤ x ∧ x < MAP_WIDTH ∧ 0 ≤ y ∧ y < MAP_HEIGHT := by
  unfold gridCells
  simp only [List.mem_flatMap, List.mem_map, Prod.mk.injEq]
  constructor
  · rintro ⟨v, hv, u, hu, rfl, rfl⟩
    have h1 := mem_intRange.mp hv
    have h2 := mem_intRange.mp hu
    exact ⟨h2.1, h2.2, h1.1, h1.2⟩
  · rintro ⟨h1, h2, h3, h4⟩
    exact ⟨y, mem_intRange.mpr ⟨h3, h4⟩, x, mem_intRange.mpr ⟨h1, h2⟩, rfl, rfl⟩

/-- What the background pass does: it never touches the foreground
channels or the default foreground, it leaves unvisited cells' tints
alone, and at every visited cell the tint becomes the two-color function
of that cell's `block_sight` flag. -/
theorem bgCells_getTile (g : Game) (cells : List (Int × Int)) :
    ∀ (c c' : Console), bgCells g c cells = some c' →
      c'.defaultFg = c.defaultFg ∧ c'.fgChar = c.fgChar ∧ c'.fgColor = c.fgColor ∧
      (∀ a b : Int, (a, b) ∉ cells → c'.bg a b = c.bg a b) ∧
      (∀ p ∈ cells, ∃ t, getTile g.map p.1 p.2 = some t ∧
        c'.bg p.1 p.2 =
          if t.block_sight then COLOR_DARK_WALL else COLOR_DARK_GROUND) := by
  induction cells with
  | nil =>
    intro c c' h
    unfold bgCells at h
    simp only [Option.some.injEq] at h
    subst h
    exact ⟨rfl, rfl, rfl, fun a b _ => rfl, by simp⟩
  | cons p rest ih =>
    intro c c' h
    unfold bgCells at h
    cases hg : getTile g.map p.1 p.2 with
    | none => rw [hg] at h; simp at h
    | some t =>
      rw [hg, Option.some_bind] at h
      set c1 : Console :=
        if t.block_sight
        then c.set_char_background p.1 p.2 COLOR_DARK_WALL
        else c.set_char_background p.1 p.2 COLOR_DARK_GROUND with hc1
      obtain ⟨ha1, ha2, ha3, ha4, ha5⟩ := ih c1 c' h
      have hc1fg : c1.defaultFg = c.defaultFg ∧ c1.fgChar = c.fgChar ∧
          c1.fgColor = c.fgColor := by
        rw [hc1]
        by_cases hw : t.block_sight <;>
          simp [hw, Console.set_char_background]
      have hc1bg : ∀ a b : Int, ¬(a = p.1 ∧ b = p.2) → c1.bg a b = c.bg a b := by
        intro a b hab
        rw [hc1]
        by_cases hw : t.block_sight <;>
          simp [hw, Console.set_char_background, if_neg hab]
      have hc1at : c1.bg p.1 p.2 =
          if t.block_sight then COLOR_DARK_WALL else COLOR_DARK_GROUND := by
        rw [hc1]
        by_cases hw : t.block_sight <;>
          simp [hw, Console.set_char_background]
      refine ⟨by rw [ha1, hc1fg.1], by rw [ha2, hc1fg.2.1], by rw [ha3, hc1fg.2.2],
        ?_, ?_⟩
      · intro a b hab
        have hr : (a, b) ∉ rest := fun hh => hab (List.mem_cons_of_mem _ hh)
        have hne : (a, b) ≠ p := fun hh => hab (hh ▸ List.mem_cons_self _ _)
        rw [ha4 a b hr, hc1bg a b (fun hh =>
          hne (by rw [Prod.ext_iff]; exact ⟨hh.1, hh.2⟩))]
      · rintro q hq
        by_cases hr : q ∈ rest
        · exact ha5 q hr
        · have heq : q = p := by
            rcases List.mem_cons.mp hq with h1 | h1
            · exact h1
            · exact absurd h1 hr
          subst heq
          exact ⟨t, hg, by rw [ha4 q.1 q.2 (by simpa using hr), hc1at]⟩

/-- The background pass succeeds whenever every visited cell's tile
lookup succeeds. -/
theorem bgCells_isSome (g : Game) (cells : List (Int × Int)) :
    ∀ c : Console, (∀ p ∈ cells, (getTile g.map p.1 p.2).isSome) →
      (bgCells g c cells).isSome := by
  induction cells with
  | nil => intro c _; unfold bgCells; simp
  | cons p rest ih =>
    intro c hall
    unfold bgCells
    cases hg : getTile g.map p.1 p.2 with
    | none =>
      have := hall p (List.mem_cons_self _ _)
      rw [hg] at this
      simp at this
    | some t =>
      rw [Option.some_bind]
      exact ih _ (fun q hq => hall q (List.mem_cons_of_mem _ hq))

/-- Writing a background tint and drawing a glyph commute: they touch
disjoint channels of the buffer. -/
theorem draw_scb_comm (o : Object) (c : Console) (x y : Int) (col : Color) :
    (o.draw c).set_char_background x y col = o.draw (c.set_char_background x y col) :=
  rfl

theorem entityPass_scb (objects : List Object) :
    ∀ (c : Console) (x y : Int) (col : Color),
      (entityPass objects c).set_char_background x y col =
        entityPass objects (c.set_char_background x y col) := by
  induction objects with
  | nil => intro c x y col; rfl
  | cons o rest ih =>
    intro c x y col
    unfold entityPass
    rw [ih, draw_scb_comm]

theorem bgCells_entityPass (g : Game) (objects : List Object)
    (cells : List (Int × Int)) :
    ∀ c : Console,
      bgCells g (entityPass objects c) cells =
        (bgCells g c cells).map (entityPass objects) := by
  induction cells with
  | nil => intro c; unfold bgCells; rfl
  | cons p rest ih =>
    intro c
    unfold bgCells
    cases hg : getTile g.map p.1 p.2 with
    | none => rfl
    | some t =>
      rw [Option.some_bind, Option.some_bind]
      by_cases hw : t.block_sight
      · rw [if_pos hw, if_pos hw, entityPass_scb, ih]
      · rw [if_neg hw, if_neg hw, entityPass_scb, ih]

/-! ### Input handling

The key event shape and the window's fullscreen flag come from the
excluded windowing collaborator and are modelled from the spec. -/

/-- Modelled from the spec: the discriminated key code consumed by the
core — one of Up/Down/Left/Right/Enter/Escape/other. -/
inductive KeyCode where
  | Up
  | Down
  | Left
  | Right
  | Enter
  | Escape
  | Other
deriving DecidableEq

/-- Modelled from the spec: a key event — a code plus an alt modifier
flag (the only modifier the core reads). -/
structure Key where
  code : KeyCode
  alt : Bool
deriving DecidableEq

/-- Modelled from the spec: the window state the key handler can touch —
its fullscreen/display-mode flag. -/
structure RootState where
  fullscreen : Bool
deriving DecidableEq

/-- `handle_keys(tcod, game, player)` from the source, with the blocking
`wait_for_keypress` result passed in as `key`. Returns the window state,
the player, and the exit flag (`true` to exit); `none` models a panic
inside `move_by`. Match arms follow the source order: the four arrow
keys, then Enter with alt (fullscreen toggle), then Escape, then the
wildcard no-op. -/
def handle_keys (key : Key) (root : RootState) (game : Game) (player : Object) :
    Option (RootState × Object × Bool) :=
  match key.code, key.alt with
  | KeyCode.Up, _ => (player.move_by game 0 (-1)).map fun p => (root, p, false)
  | KeyCode.Down, _ => (player.move_by game 0 1).map fun p => (root, p, false)
  | KeyCode.Left, _ => (player.move_by game (-1) 0).map fun p => (root, p, false)
  | KeyCode.Right, _ => (player.move_by game 1 0).map fun p => (root, p, false)
  | KeyCode.Enter, true => some (⟨!root.fullscreen⟩, player, false)
  | KeyCode.Escape, _ => some (root, player, true)
  | _, _ => some (root, player, false)

/-- What one `move_by` call does when the destination tile exists: commit
exactly when the tile is not blocked, else keep the position, never
failing. -/
theorem move_by_eq (o : Object) (g : Game) (dx dy : Int) (t : Tile)
    (h : g.tile_at (o.x + dx) (o.y + dy) = some t) :
    o.move_by g dx dy =
      some (if t.blocked then o else { o with x := o.x + dx, y := o.y + dy }) := by
  unfold Object.move_by
  rw [h, Option.map_some']
  cases hb : t.blocked
  · simp [hb]
  · simp [hb]

/-! ### Auxiliary concrete data for witnesses -/

/-- A small all-wall 3×3 map used to instantiate the general theorems. -/
def m3 : Map := List.replicate 3 (List.replicate 3 Tile.wall)

/-- A 1×1 game whose single tile is passable. -/
def g1 : Game := ⟨[[Tile.empty]]⟩

/-- A test object sitting at the origin. -/
def o1 : Object := Object.new 0 0 '@' WHITE

/-! ### The claims -/

/-- Claim C1: for every entity and delta, `move_by` computes the candidate
position `(x+dx, y+dy)` and, given that the destination tile exists,
commits the move exactly when that tile's `blocked` flag is false — the
position then becomes exactly `(x+dx, y+dy)` — and otherwise leaves the
position unchanged without raising any error (the result is still `some`,
a silent no-op). -/
theorem move_by_spec (o : Object) (g : Game) (dx dy : Int) (t : Tile)
    (h : g.tile_at (o.x + dx) (o.y + dy) = some t) :
    o.move_by g dx dy =
      some (if t.blocked then o else { o with x := o.x + dx, y := o.y + dy }) :=
  move_by_eq o g dx dy t h

/-- Witness for C1 at a concrete unblocked destination. -/
theorem move_by_spec_witness :
    o1.move_by g1 0 0 =
      some (if Tile.empty.blocked then o1
            else { o1 with x := o1.x + 0, y := o1.y + 0 }) :=
  move_by_spec o1 g1 0 0 Tile.empty (by decide)

set_option maxRecDepth 100000 in
/-- Claim C2: on the generated map (80×45 all-wall with rooms
`(20,15,10,15)` and `(50,15,10,15)` carved and a horizontal tunnel from
x=25 to x=55 at y=23), tiles (25,23), (55,23) and (35,23) are unblocked
while (0,0) and (35,10) are blocked. -/
theorem make_map_scenario :
    ((make_map.bind fun m => getTile m 25 23).map Tile.blocked = some false) ∧
    ((make_map.bind fun m => getTile m 55 23).map Tile.blocked = some false) ∧
    ((make_map.bind fun m => getTile m 35 23).map Tile.blocked = some false) ∧
    ((make_map.bind fun m => getTile m 0 0).map Tile.blocked = some true) ∧
    ((make_map.bind fun m => getTile m 35 10).map Tile.blocked = some true) := by
  refine ⟨by decide, by decide, by decide, by decide, by decide⟩

/-- Claim C3: carving a room with corners `(x1,y1)-(x2,y2)` clears exactly
the tiles with `x1 < x < x2` and `y1 < y < y2` — both flags set to false,
i.e. the tile becomes `Tile.empty` — and changes no other tile, so a
one-tile border around the rectangle is never written. -/
theorem create_room_interior (m m' : Map) (room : Rect)
    (hx1 : I32 room.x1) (hx2 : I32 room.x2) (hy1 : I32 room.y1) (hy2 : I32 room.y2)
    (h : create_room m room = some m')
    (a b : Int) (ha : I32 a) (hb : I32 b) :
    getTile m' a b =
      if room.x1 < a ∧ a < room.x2 ∧ room.y1 < b ∧ b < room.y2
      then some Tile.empty else getTile m a b :=
  create_room_getTile hx1 hx2 hy1 hy2 h a b ha hb

/-- Witness for C3: carving room `(0,0)-(2,2)` into a 3×3 wall map clears
its single interior cell (1,1). -/
theorem create_room_interior_witness :
    getTile ((create_room m3 ⟨0, 0, 2, 2⟩).getD []) 1 1 =
      if (0:Int) < 1 ∧ (1:Int) < 2 ∧ (0:Int) < 1 ∧ (1:Int) < 2
      then some Tile.empty else getTile m3 1 1 :=
  create_room_interior m3 ((create_room m3 ⟨0, 0, 2, 2⟩).getD []) ⟨0, 0, 2, 2⟩
    (by decide) (by decide) (by decide) (by decide) (by decide) 1 1
    (by decide) (by decide)

/-- Claim C4: tunnel carving clears exactly the 1-tile-wide inclusive run
between the two endpoint coordinates — from their min to their max — on
any starting map, and is therefore order-independent:
`create_h_tunnel m a b y = create_h_tunnel m b a y` and likewise for
vertical tunnels. -/
theorem tunnel_carving :
    (∀ (m m' : Map) (x1 x2 y : Int), I32 x1 → I32 x2 → I32 y →
      create_h_tunnel m x1 x2 y = some m' →
      ∀ (a b : Int), I32 a → I32 b →
        getTile m' a b =
          if min x1 x2 ≤ a ∧ a ≤ max x1 x2 ∧ b = y
          then some Tile.empty else getTile m a b) ∧
    (∀ (m m' : Map) (y1 y2 x : Int), I32 y1 → I32 y2 → I32 x →
      create_v_tunnel m y1 y2 x = some m' →
      ∀ (a b : Int), I32 a → I32 b →
        getTile m' a b =
          if a = x ∧ min y1 y2 ≤ b ∧ b ≤ max y1 y2
          then some Tile.empty else getTile m a b) ∧
    (∀ (m : Map) (x1 x2 y : Int),
      create_h_tunnel m x1 x2 y = create_h_tunnel m x2 x1 y) ∧
    (∀ (m : Map) (y1 y2 x : Int),
      create_v_tunnel m y1 y2 x = create_v_tunnel m y2 y1 x) := by
  refine ⟨?_, ?_, create_h_tunnel_comm, create_v_tunnel_comm⟩
  · intro m m' x1 x2 y h1 h2 h3 h a b ha hb
    exact create_h_tunnel_getTile h1 h2 h3 h a b ha hb
  · intro m m' y1 y2 x h1 h2 h3 h a b ha hb
    exact create_v_tunnel_getTile h1 h2 h3 h a b ha hb

/-- Witness for C4: a concrete horizontal tunnel on the 3×3 wall map,
given with reversed endpoints (2 before 0), still clears cell (1,1). -/
theorem tunnel_carving_witness :
    getTile ((create_h_tunnel m3 2 0 1).getD []) 1 1 =
      if min 2 0 ≤ (1:Int) ∧ (1:Int) ≤ max 2 0 ∧ (1:Int) = 1
      then some Tile.empty else getTile m3 1 1 :=
  tunnel_carving.1 m3 ((create_h_tunnel m3 2 0 1).getD []) 2 0 1
    (by decide) (by decide) (by decide) (by decide) 1 1 (by decide) (by decide)

theorem length_interiorCells (room : Rect) :
    (interiorCells room).length =
      (room.x2 - (room.x1 + 1)).toNat * (room.y2 - (room.y1 + 1)).toNat := by
  unfold interiorCells
  rw [List.length_flatMap]
  simp only [Function.comp_def, List.length_map]
  rw [List.map_const', List.sum_const_nat, length_intRange, length_intRange]

/-- Claim C10: `Rect::new(x, y, w, h)` has corners `(x, y, x+w, y+h)`, so
the carved passable interior is exactly the cells with
`x+1 ≤ cx ≤ x+w-1` and `y+1 ≤ cy ≤ y+h-1` — a region one cell narrower
and shorter than the nominal size, with `(w-1)*(h-1)` cells. -/
theorem rect_interior_size (x y w h : Int)
    (hx : I32 x) (hy : I32 y) (hxw : I32 (x + w)) (hyh : I32 (y + h))
    (m m' : Map) (hc : create_room m (Rect.new x y w h) = some m')
    (a b : Int) (ha : I32 a) (hb : I32 b) :
    (Rect.new x y w h = ⟨x, y, x + w, y + h⟩) ∧
    (getTile m' a b =
      if x + 1 ≤ a ∧ a ≤ x + w - 1 ∧ y + 1 ≤ b ∧ b ≤ y + h - 1
      then some Tile.empty else getTile m a b) ∧
    (1 ≤ w → 1 ≤ h →
      (interiorCells (Rect.new x y w h)).length = ((w - 1) * (h - 1)).toNat) := by
  refine ⟨rfl, ?_, ?_⟩
  · have key := create_room_getTile hx hxw hy hyh hc a b ha hb
    rw [key]
    by_cases hcond : x + 1 ≤ a ∧ a ≤ x + w - 1 ∧ y + 1 ≤ b ∧ b ≤ y + h - 1
    · rw [if_pos hcond, if_pos (by unfold Rect.new; dsimp; omega)]
    · rw [if_neg (fun hm => hcond (by unfold Rect.new at hm; dsimp at hm; omega)),
        if_neg hcond]
  · intro hw hh
    rw [length_interiorCells]
    unfold Rect.new
    dsimp
    have e1 : x + w - (x + 1) = w - 1 := by ring
    have e2 : y + h - (y + 1) = h - 1 := by ring
    rw [e1, e2]
    obtain ⟨n, hn⟩ := Int.eq_ofNat_of_zero_le (show (0:Int) ≤ w - 1 by omega)
    obtain ⟨k, hk⟩ := Int.eq_ofNat_of_zero_le (show (0:Int) ≤ h - 1 by omega)
    rw [hn, hk, ← Nat.cast_mul, Int.toNat_ofNat, Int.toNat_ofNat, Int.toNat_ofNat]

/-- Witness for C10 on the 3×3 wall map with a nominal 2×2 room. -/
theorem rect_interior_size_witness :
    (Rect.new 0 0 2 2 = ⟨0, 0, 0 + 2, 0 + 2⟩) ∧
    (getTile ((create_room m3 (Rect.new 0 0 2 2)).getD []) 1 1 =
      if (0:Int) + 1 ≤ 1 ∧ (1:Int) ≤ 0 + 2 - 1 ∧ (0:Int) + 1 ≤ 1 ∧ (1:Int) ≤ 0 + 2 - 1
      then some Tile.empty else getTile m3 1 1) ∧
    ((1:Int) ≤ 2 → (1:Int) ≤ 2 →
      (interiorCells (Rect.new 0 0 2 2)).length = (((2:Int) - 1) * (2 - 1)).toNat) :=
  rect_interior_size 0 0 2 2 (by decide) (by decide) (by decide) (by decide)
    m3 ((create_room m3 (Rect.new 0 0 2 2)).getD []) (by decide) 1 1
    (by decide) (by decide)

/-- Claim C5: on a rectangular `w × h` map, `tile_at` returns the stored
tile for every coordinate with `0 ≤ x < w` and `0 ≤ y < h`, and faults
(models the `Vec` index panic as `none`, rather than clamping or
defaulting) for every coordinate outside that range, negative
coordinates included. -/
theorem tile_at_bounds (g : Game) (w h : Nat) (hwf : mapWF g.map w h)
    (hw : w ≤ 2147483648) (hh : h ≤ 2147483648)
    (x y : Int) (hx : I32 x) (hy : I32 y) :
    ((0 ≤ x ∧ x < (w : Int) ∧ 0 ≤ y ∧ y < (h : Int)) →
      ∃ row t, g.map[x.toNat]? = some row ∧ row[y.toNat]? = some t ∧
        g.tile_at x y = some t) ∧
    (¬(0 ≤ x ∧ x < (w : Int) ∧ 0 ≤ y ∧ y < (h : Int)) →
      g.tile_at x y = none) := by
  constructor
  · rintro ⟨h1, h2, h3, h4⟩
    exact getTile_some_of_bounds hwf hw hh h1 h2 h3 h4
  · intro hoob
    exact getTile_none_of_oob hwf hw hh hx hy hoob

/-- Witness for C5 on the 1×1 game: the single in-bounds lookup returns
the stored tile. -/
theorem tile_at_bounds_witness :
    ∃ row t, g1.map[(0:Int).toNat]? = some row ∧ row[(0:Int).toNat]? = some t ∧
      g1.tile_at 0 0 = some t :=
  (tile_at_bounds g1 1 1 (mapWFb_eq_true (by decide)) (by decide) (by decide)
    0 0 (by decide) (by decide)).1 (by decide)

/-- Claim C7: the key handler returns the exit signal exactly for Escape;
each of the four directional keys invokes `move_by` on the player with
its delta — Up (0,-1), Down (0,1), Left (-1,0), Right (1,0) — returning
no exit; any other input leaves the player (and the game state) unchanged
and returns no exit. -/
theorem handle_keys_spec (key : Key) (root : RootState) (game : Game)
    (player : Object) :
    (key.code = KeyCode.Up →
      handle_keys key root game player =
        (player.move_by game 0 (-1)).map fun p => (root, p, false)) ∧
    (key.code = KeyCode.Down →
      handle_keys key root game player =
        (player.move_by game 0 1).map fun p => (root, p, false)) ∧
    (key.code = KeyCode.Left →
      handle_keys key root game player =
        (player.move_by game (-1) 0).map fun p => (root, p, false)) ∧
    (key.code = KeyCode.Right →
      handle_keys key root game player =
        (player.move_by game 1 0).map fun p => (root, p, false)) ∧
    (key.code = KeyCode.Escape →
      handle_keys key root game player = some (root, player, true)) ∧
    (∀ res, handle_keys key root game player = some res →
      (res.2.2 = true ↔ key.code = KeyCode.Escape)) ∧
    (key.code ≠ KeyCode.Up → key.code ≠ KeyCode.Down → key.code ≠ KeyCode.Left →
      key.code ≠ KeyCode.Right → key.code ≠ KeyCode.Escape →
      ∃ r, handle_keys key root game player = some (r, player, false)) := by
  obtain ⟨code, alt⟩ := key
  refine ⟨?_, ?_, ?_, ?_, ?_, ?_, ?_⟩
  · rintro rfl
    cases alt <;> rfl
  · rintro rfl
    cases alt <;> rfl
  · rintro rfl
    cases alt <;> rfl
  · rintro rfl
    cases alt <;> rfl
  · rintro rfl
    cases alt <;> rfl
  · intro res hres
    cases code <;> cases alt <;>
      simp only [handle_keys, Option.map_eq_some', Option.some.injEq] at hres <;>
      (obtain ⟨p1, hp1, rfl⟩ := hres; simp)
  · intro n1 n2 n3 n4 n5
    cases code <;> cases alt <;>
      first
        | exact absurd rfl n1
        | exact absurd rfl n2
        | exact absurd rfl n3
        | exact absurd rfl n4
        | exact absurd rfl n5
        | exact ⟨⟨!root.fullscreen⟩, rfl⟩
        | exact ⟨root, rfl⟩

/-- Witness for C7: Escape exits. -/
theorem handle_keys_spec_witness :
    handle_keys ⟨KeyCode.Escape, false⟩ ⟨false⟩ g1 o1 = some (⟨false⟩, o1, true) :=
  (handle_keys_spec ⟨KeyCode.Escape, false⟩ ⟨false⟩ g1 o1).2.2.2.2.1 rfl

/-- Claim C8: rendering order is immaterial — drawing the entities and
then running the background pass produces the same composed buffer as
running the background pass first and then drawing the entities, because
the glyph/foreground channels and the background-tint channel are written
independently. -/
theorem render_order_commutes (con : Console) (g : Game) (objects : List Object) :
    render_all con g objects = render_all_bg_first con g objects := by
  unfold render_all render_all_bg_first bgPass
  exact bgCells_entityPass g objects gridCells con

/-- Claim C6: in a successfully rendered frame, the background tint of
every grid cell of the composed buffer is a function of that cell's
`block_sight` flag alone — `COLOR_DARK_WALL` (RGB (0,0,100)) when the
flag is set, `COLOR_DARK_GROUND` (RGB (50,50,150)) otherwise. -/
theorem render_all_bg_tint (con : Console) (g : Game) (objects : List Object)
    (con' : Console) (h : render_all con g objects = some con')
    (x y : Int) (hx0 : 0 ≤ x) (hx1 : x < MAP_WIDTH)
    (hy0 : 0 ≤ y) (hy1 : y < MAP_HEIGHT) :
    ∃ t, getTile g.map x y = some t ∧
      con'.bg x y = if t.block_sight then COLOR_DARK_WALL else COLOR_DARK_GROUND := by
  have hb := bgCells_getTile g gridCells (entityPass objects con) con' h
  obtain ⟨t, ht, hbg⟩ := hb.2.2.2.2 (x, y) (mem_gridCells.mpr ⟨hx0, hx1, hy0, hy1⟩)
  exact ⟨t, ht, hbg⟩

/-- The objects created in `main`: the player `@` at (25,23) and the NPC
`X` at (55,23). -/
def objs0 : List Object :=
  [Object.new 25 23 '@' WHITE, Object.new 55 23 'X' YELLOW]

/-- The `Game` built by `Game::new` in `main` (its `make_map()` call is
total in the source; `getD` discharges the modelled panic case). -/
def game0 : Game := ⟨make_map.getD []⟩

/-- A cleared console buffer to render into. -/
def con0 : Console := ⟨WHITE, fun _ _ => ' ', fun _ _ => WHITE, fun _ _ => ⟨0, 0, 0⟩⟩

set_option maxRecDepth 100000 in
/-- Witness for C6: rendering the generated game draws some buffer, and
the tint read back at cell (0,0) is the two-color function of its
`block_sight` flag. -/
theorem render_all_bg_tint_witness :
    ∃ con' t, render_all con0 game0 objs0 = some con' ∧
      getTile game0.map 0 0 = some t ∧
      con'.bg 0 0 = if t.block_sight then COLOR_DARK_WALL else COLOR_DARK_GROUND := by
  have hwf : mapWF game0.map 80 45 := mapWFb_eq_true (by decide)
  have hall : ∀ p ∈ gridCells, (getTile game0.map p.1 p.2).isSome := by
    rintro ⟨a, b⟩ hp
    have hmem := mem_gridCells.mp hp
    simp only [MAP_WIDTH, MAP_HEIGHT] at hmem
    obtain ⟨row, t, _, _, hg⟩ := getTile_some_of_bounds hwf
      (by norm_num) (by norm_num) hmem.1 (by push_cast; omega)
      hmem.2.2.1 (by push_cast; omega)
    rw [hg]
    rfl
  have hsome : (render_all con0 game0 objs0).isSome :=
    bgCells_isSome game0 gridCells (entityPass objs0 con0) hall
  obtain ⟨con', hcon⟩ := Option.isSome_iff_exists.mp hsome
  obtain ⟨t, ht, hbg⟩ := render_all_bg_tint con0 game0 objs0 con' hcon 0 0
    (by decide) (by decide) (by decide) (by decide)
  exact ⟨con', t, hcon, ht, hbg⟩

/-! ### Safety of iterated movement on the generated map -/

/-- The four single-step deltas `handle_keys` can request:
Up (0,-1), Down (0,1), Left (-1,0), Right (1,0). -/
def unitDeltas : List (Int × Int) := [(0, -1), (0, 1), (-1, 0), (1, 0)]

/-- Iterate `move_by` over a list of deltas (the movement an input
sequence drives through `handle_keys`); `none` models a panic in any
step's tile lookup. -/
def steps (g : Game) (o : Object) (ds : List (Int × Int)) : Option Object :=
  match ds with
  | [] => some o
  | d :: rest => (o.move_by g d.1 d.2).bind fun o1 => steps g o1 rest

/-- Boolean probe: the tile at (x,y) exists and is blocked. -/
def blockedAt (m : Map) (x y : Int) : Bool :=
  ((getTile m x y).map Tile.blocked).getD false

/-- Boolean probe: the tile at (x,y) exists and is not blocked. -/
def unblockedAt (m : Map) (x y : Int) : Bool :=
  ((getTile m x y).map fun t => !t.blocked).getD false

/-- Boolean check that every tile on the outer boundary of the 80×45 grid
is blocked. -/
def boundaryOk (m : Map) : Bool :=
  (intRange 0 MAP_WIDTH).all fun x =>
    (intRange 0 MAP_HEIGHT).all fun y =>
      !(x == 0 || x == MAP_WIDTH - 1 || y == 0 || y == MAP_HEIGHT - 1) ||
        blockedAt m x y

/-- An entity position that is in bounds and stands on an unblocked tile. -/
def goodPos (m : Map) (o : Object) : Prop :=
  0 ≤ o.x ∧ o.x < MAP_WIDTH ∧ 0 ≤ o.y ∧ o.y < MAP_HEIGHT ∧
  ∃ t, getTile m o.x o.y = some t ∧ t.blocked = false

theorem blockedAt_spec {m : Map} {x y : Int} (h : blockedAt m x y = true) :
    ∃ t, getTile m x y = some t ∧ t.blocked = true := by
  unfold blockedAt at h
  cases hg : getTile m x y with
  | none => rw [hg] at h; simp at h
  | some t =>
    rw [hg] at h
    simp only [Option.map_some', Option.getD_some] at h
    exact ⟨t, rfl, h⟩

theorem unblockedAt_spec {m : Map} {x y : Int} (h : unblockedAt m x y = true) :
    ∃ t, getTile m x y = some t ∧ t.blocked = false := by
  unfold unblockedAt at h
  cases hg : getTile m x y with
  | none => rw [hg] at h; simp at h
  | some t =>
    rw [hg] at h
    simp only [Option.map_some', Option.getD_some, Bool.not_eq_true'] at h
    exact ⟨t, rfl, h⟩

theorem boundaryOk_spec {m : Map} (hb : boundaryOk m = true) :
    ∀ x y : Int, 0 ≤ x → x < MAP_WIDTH → 0 ≤ y → y < MAP_HEIGHT →
      (x = 0 ∨ x = MAP_WIDTH - 1 ∨ y = 0 ∨ y = MAP_HEIGHT - 1) →
      ∃ t, getTile m x y = some t ∧ t.blocked = true := by
  intro x y hx0 hx1 hy0 hy1 hbd
  unfold boundaryOk at hb
  rw [List.all_eq_true] at hb
  have h1 := hb x (mem_intRange.mpr ⟨hx0, hx1⟩)
  rw [List.all_eq_true] at h1
  have h2 := h1 y (mem_intRange.mpr ⟨hy0, hy1⟩)
  have hc : (x == 0 || x == MAP_WIDTH - 1 || y == 0 || y == MAP_HEIGHT - 1) = true := by
    rcases hbd with h | h | h | h <;> simp [h]
  rw [hc] at h2
  simp only [Bool.not_true, Bool.false_or] at h2
  exact blockedAt_spec h2

set_option maxRecDepth 1000000 in
/-- Claim C9: on the generated map every outer-boundary tile is blocked;
consequently every single-step `move_by` with a unit delta from an
in-bounds unblocked position succeeds (its tile lookup stays in bounds)
and lands on an in-bounds unblocked position, and iterating unit moves
from the initial entity positions (25,23) and (55,23) can never reach the
out-of-bounds lookup in `move_by`. -/
theorem boundary_and_safe_moves (m : Map) (hm : make_map = some m) :
    (∀ x y : Int, 0 ≤ x → x < MAP_WIDTH → 0 ≤ y → y < MAP_HEIGHT →
      (x = 0 ∨ x = MAP_WIDTH - 1 ∨ y = 0 ∨ y = MAP_HEIGHT - 1) →
      ∃ t, getTile m x y = some t ∧ t.blocked = true) ∧
    (∀ o : Object, goodPos m o → ∀ d ∈ unitDeltas,
      ∃ o', o.move_by ⟨m⟩ d.1 d.2 = some o' ∧ goodPos m o') ∧
    (∀ o ∈ objs0, ∀ ds : List (Int × Int), (∀ d ∈ ds, d ∈ unitDeltas) →
      ∃ o', steps ⟨m⟩ o ds = some o' ∧ goodPos m o') := by
  have hbO : boundaryOk m = true := by
    have hcalc : make_map.map boundaryOk = some true := by decide
    rw [hm] at hcalc
    simpa using hcalc
  have hwf : mapWF m 80 45 := by
    have hcalc : make_map.map (fun mm => mapWFb mm 80 45) = some true := by decide
    rw [hm] at hcalc
    simp only [Option.map_some', Option.some.injEq] at hcalc
    exact mapWFb_eq_true hcalc
  have hg1 : unblockedAt m 25 23 = true ∧ unblockedAt m 55 23 = true := by
    have hcalc : make_map.map
        (fun mm => unblockedAt mm 25 23 && unblockedAt mm 55 23) = some true := by
      decide
    rw [hm] at hcalc
    simp only [Option.map_some', Option.some.injEq] at hcalc
    exact Bool.and_eq_true_iff.mp hcalc
  have hbdry := boundaryOk_spec hbO
  have hstep : ∀ o : Object, goodPos m o → ∀ d ∈ unitDeltas,
      ∃ o', o.move_by ⟨m⟩ d.1 d.2 = some o' ∧ goodPos m o' := by
    intro o ho d hd
    obtain ⟨hx0, hx1, hy0, hy1, t, ht, htb⟩ := ho
    have hnb : ¬(o.x = 0 ∨ o.x = MAP_WIDTH - 1 ∨ o.y = 0 ∨ o.y = MAP_HEIGHT - 1) := by
      intro hc
      obtain ⟨t', ht', htb'⟩ := hbdry o.x o.y hx0 hx1 hy0 hy1 hc
      rw [ht] at ht'
      injection ht' with he
      rw [← he, htb] at htb'
      exact Bool.false_ne_true htb'
    simp only [MAP_WIDTH, MAP_HEIGHT] at hx1 hy1 hnb
    have hb1 : 1 ≤ o.x ∧ o.x ≤ 78 ∧ 1 ≤ o.y ∧ o.y ≤ 43 := by omega
    have key : ∀ dx dy : Int,
        ((dx = 0 ∧ (dy = -1 ∨ dy = 1)) ∨ (dy = 0 ∧ (dx = -1 ∨ dx = 1))) →
        ∃ o', o.move_by ⟨m⟩ dx dy = some o' ∧ goodPos m o' := by
      intro dx dy hdxy
      obtain ⟨row, t', hrr, hcc, hg⟩ := getTile_some_of_bounds hwf
        (by norm_num) (by norm_num)
        (show (0:Int) ≤ o.x + dx by omega)
        (show o.x + dx < ((80:Nat):Int) by push_cast; omega)
        (show (0:Int) ≤ o.y + dy by omega)
        (show o.y + dy < ((45:Nat):Int) by push_cast; omega)
      have hmv := move_by_eq o ⟨m⟩ dx dy t' hg
      refine ⟨_, hmv, ?_⟩
      by_cases hbk : t'.blocked
      · rw [if_pos hbk]
        exact ⟨hx0, by simp only [MAP_WIDTH]; omega, hy0,
          by simp only [MAP_HEIGHT]; omega, t, ht, htb⟩
      · rw [if_neg hbk]
        refine ⟨?_, ?_, ?_, ?_, t', ?_, ?_⟩
        · show 0 ≤ o.x + dx
          omega
        · show o.x + dx < MAP_WIDTH
          simp only [MAP_WIDTH]
          omega
        · show 0 ≤ o.y + dy
          omega
        · show o.y + dy < MAP_HEIGHT
          simp only [MAP_HEIGHT]
          omega
        · show getTile m (o.x + dx) (o.y + dy) = some t'
          exact hg
        · simpa using hbk
    obtain ⟨dx, dy⟩ := d
    simp only [unitDeltas, List.mem_cons, List.not_mem_nil, or_false,
      Prod.mk.injEq] at hd
    exact key dx dy (by omega)
  have hsteps : ∀ ds : List (Int × Int), (∀ d ∈ ds, d ∈ unitDeltas) →
      ∀ o : Object, goodPos m o →
        ∃ o', steps ⟨m⟩ o ds = some o' ∧ goodPos m o' := by
    intro ds
    induction ds with
    | nil =>
      intro _ o ho
      exact ⟨o, rfl, ho⟩
    | cons d rest ih =>
      intro hall o ho
      obtain ⟨o1, hmv, h1⟩ := hstep o ho d (List.mem_cons_self _ _ |> hall d)
      obtain ⟨o', hs, h2⟩ := ih (fun q hq => hall q (List.mem_cons_of_mem _ hq)) o1 h1
      refine ⟨o', ?_, h2⟩
      unfold steps
      rw [hmv, Option.some_bind]
      exact hs
  refine ⟨hbdry, hstep, ?_⟩
  intro o ho ds hall
  apply hsteps ds hall
  simp only [objs0, List.mem_cons, List.not_mem_nil, or_false] at ho
  rcases ho with rfl | rfl
  · exact ⟨by decide, by decide, by decide, by decide, unblockedAt_spec hg1.1⟩
  · exact ⟨by decide, by decide, by decide, by decide, unblockedAt_spec hg1.2⟩

set_option maxRecDepth 1000000 in
/-- Witness for C9: on the concrete generated map, the boundary corner
(0,0) holds a blocked tile. -/
theorem boundary_and_safe_moves_witness :
    ∃ t, getTile (make_map.getD []) 0 0 = some t ∧ t.blocked = true :=
  (boundary_and_safe_moves (make_map.getD []) (by decide)).1 0 0
    (by decide) (by decide) (by decide) (by decide) (Or.inl rfl)

end Roguelike
